import Mathlib

/-!
Shallow embedding of the `@proj-airi/server-runtime` WebSocket message broker
(`src/packages/server-runtime/src/index.ts`).

The broker keeps two process-wide registries:
  `peers : Map<string, AuthenticatedPeer>` (the Peer Registry, keyed by the
  transport-assigned connection id) and
  `peersByModule : Map<string, Map<number | undefined, AuthenticatedPeer>>`
  (the Module Directory, keyed by module name, then by optional slot index).

JavaScript `Map`s are embedded as association lists with the same observable
operations: `mget` (Map.get), `mset` (Map.set: replace in place if the key is
present, otherwise append, preserving insertion order), `mdel` (Map.delete),
and `mmodify` (fetch the stored object and mutate one of its fields in
place).  The directory stores the registry key (the connection id) of the
referenced peer, which is exactly the observable identity the source uses
when it sends to a directory entry or lists it over the introspection
endpoint.

Event payload fields coming from `JSON.parse` are embedded as `JVal`, a
JavaScript-value skeleton rich enough for the dynamic checks the broker
performs (`!name || typeof name !== 'string'`, `Number.isInteger(x) && x >= 0`,
strict equality against a configured string token, `moduleName === ''`).

Each lifecycle callback (`open`, `message`, `close`) becomes a pure function
from the broker state to a new state plus the list of send attempts it makes;
a send attempt records its target, payload and whether the underlying
transport send succeeded.  Only the broadcast loop guards sends with
try/catch, so only there a failing transport (the `fails` oracle) is
consulted; everywhere else the source lets exceptions propagate and the
claims under study never exercise that path.
-/

namespace Airi

/-- `Map.get`: first binding of the key in the association list, if any. -/
def mget {α β : Type} [DecidableEq α] : List (α × β) → α → Option β
  | [], _ => none
  | (k, v) :: t, k' => if k = k' then some v else mget t k'

/-- `Map.set`: replace the binding in place if the key is present (keeping its
position, as JavaScript `Map.set` does), otherwise append the new binding. -/
def mset {α β : Type} [DecidableEq α] : List (α × β) → α → β → List (α × β)
  | [], k, v => [(k, v)]
  | (k0, v0) :: t, k, v =>
    if k0 = k then (k0, v) :: t else (k0, v0) :: mset t k v

/-- `Map.delete`: remove the binding of the key.  (On the duplicate-free lists
that embed a `Map` this removes the single binding, exactly as in JS.) -/
def mdel {α β : Type} [DecidableEq α] : List (α × β) → α → List (α × β)
  | [], _ => []
  | (k0, v0) :: t, k =>
    if k0 = k then mdel t k else (k0, v0) :: mdel t k

/-- Fetch the stored object for a key and mutate it in place (the source's
`const p = peers.get(id); p.field = x` idiom); no-op if the key is absent. -/
def mmodify {α β : Type} [DecidableEq α] : List (α × β) → α → (β → β) → List (α × β)
  | [], _, _ => []
  | (k0, v0) :: t, k, f =>
    if k0 = k then (k0, f v0) :: t else (k0, v0) :: mmodify t k f

/-- Skeleton of a JavaScript value as it arrives from `JSON.parse` plus the
`undefined` of an absent object field.  `intNum` is a number whose value is an
integer (`Number.isInteger` true); `nonIntNum` any other number; `obj` any
object or array (opaque to the broker's checks). -/
inductive JVal : Type where
  | undef
  | null
  | bool (b : Bool)
  | intNum (n : Int)
  | nonIntNum
  | str (s : String)
  | obj
deriving DecidableEq, Repr

/-- The fields of `event.data` the broker ever reads; an absent field is
`JVal.undef`, mirroring property access on a JS object. -/
structure EventData where
  token : JVal := JVal.undef
  name : JVal := JVal.undef
  index : JVal := JVal.undef
  moduleName : JVal := JVal.undef
  moduleIndex : JVal := JVal.undef
  config : JVal := JVal.undef
deriving DecidableEq, Repr

/-- The wire envelope `WebSocketEvent` after `message.json()`:
`type` string, `data` object, `source` carried opaquely. -/
structure WsEvent where
  type : String
  data : EventData
  source : String
deriving DecidableEq, Repr

/-- The mutable per-connection record `AuthenticatedPeer` (minus the raw
transport handle: a peer is addressed by its registry key, its connection id). -/
structure PeerRec where
  authenticated : Bool
  name : String
  index : Option Nat := none
deriving DecidableEq, Repr

/-- The Module Directory `peersByModule`: module name to inner map from
optional slot index to the occupying peer's connection id. -/
abbrev Dir := List (String × List (Option Nat × String))

/-- The broker's shared mutable state: Peer Registry and Module Directory. -/
structure ServerState where
  peers : List (String × PeerRec)
  dir : Dir
deriving DecidableEq, Repr

/-- The empty broker state at process start. -/
def ServerState.empty : ServerState := ⟨[], []⟩

/-- One server-to-peer message, by shape: the two pre-stringified `RESPONSES`,
an `error` reply, a forwarded `module:configure`, or a broadcast payload
(the re-serialized incoming event). -/
inductive OutMsg : Type where
  | authenticated
  | notAuthenticated
  | errorMsg (message : String)
  | moduleConfigure (config : JVal) (source : String)
  | payload (ev : WsEvent)
deriving DecidableEq, Repr

/-- One send attempt: target connection id, message, and whether the
underlying `peer.send` succeeded (`ok = false` only in the broadcast loop,
the one place the source catches a throwing send). -/
structure Send where
  target : String
  msg : OutMsg
  ok : Bool
deriving DecidableEq, Repr

/-- Error message for an invalid `name` on `module:announce`. -/
def announceNameMsg : String :=
  "the field \x27name\x27 must be a non-empty string for event \x27module:announce\x27"

/-- Error message for an invalid `index` on `module:announce`. -/
def announceIndexMsg : String :=
  "the field \x27index\x27 must be a non-negative integer for event \x27module:announce\x27"

/-- Error message for announcing without authenticating first. -/
def mustAuthMsg : String := "must authenticate before announcing"

/-- Error message for a failed `module:authenticate`. -/
def invalidTokenMsg : String := "invalid token"

/-- Error message for an empty `moduleName` on `ui:configure`. -/
def uiNameMsg : String :=
  "the field \x27moduleName\x27 can\x27t be empty for event \x27ui:configure\x27"

/-- Error message for an invalid `moduleIndex` on `ui:configure`. -/
def uiIndexMsg : String :=
  "the field \x27moduleIndex\x27 must be a non-negative integer for event \x27ui:configure\x27"

/-- Error message for a `ui:configure` whose target slot is not registered. -/
def notFoundMsg : String :=
  "module not found, it hasn\x27t announced itself or the name is incorrect"

/-- `!name || typeof name !== 'string'`: true exactly when `name` is not a
non-empty string (the only falsy string is `''`, and every non-string fails
the `typeof` test whatever its truthiness). -/
def nameInvalid : JVal → Bool
  | JVal.str s => s = ""
  | _ => true

/-- `typeof x !== 'undefined' && (!Number.isInteger(x) || x < 0)`: the check
that rejects a present index field that is not a non-negative integer
(shared verbatim by `module:announce` and `ui:configure` in the source). -/
def idxCheckFails : JVal → Bool
  | JVal.undef => false
  | JVal.intNum n => decide (n < 0)
  | _ => true

/-- Extract the string from a value that passed `nameInvalid = false`. -/
def nameStr : JVal → String
  | JVal.str s => s
  | _ => ""

/-- The `number | undefined` key a validated index field denotes in the
directory's inner map. -/
def idxKey : JVal → Option Nat
  | JVal.intNum n => some n.toNat
  | _ => none

/-- `registerModulePeer`: create the inner map for the module name if absent,
then set the slot, overwriting any current occupant. -/
def registerModulePeer (d : Dir) (pid : String) (name : String) (index : Option Nat) : Dir :=
  match mget d name with
  | none => mset d name [(index, pid)]
  | some g => mset d name (mset g index pid)

/-- `unregisterModulePeer`: no-op when the peer's recorded name is empty
(falsy); otherwise delete the slot keyed by the peer's recorded
`(name, index)` from the inner map and prune the module name if its inner
map became empty. -/
def unregisterModulePeer (d : Dir) (p : PeerRec) : Dir :=
  if p.name = "" then d
  else
    match mget d p.name with
    | none => d
    | some g =>
      let g' := mdel g p.index
      if g'.isEmpty then mdel d p.name else mset d p.name g'

/-- The `open` callback: with a configured auth token the peer starts
unauthenticated; without one it is sent the pre-built acknowledgement and
starts authenticated.  Either way it is stored under its connection id. -/
def handleOpen (tok : String) (st : ServerState) (id : String) :
    ServerState × List Send :=
  if tok ≠ "" then
    ({ st with peers := mset st.peers id ⟨false, "", none⟩ }, [])
  else
    ({ st with peers := mset st.peers id ⟨true, "", none⟩ },
     [⟨id, OutMsg.authenticated, true⟩])

/-- The `module:authenticate` case: with a configured token, a strictly
unequal `data.token` draws the `invalid token` error; otherwise the peer is
sent the acknowledgement and, if present in the registry, marked
authenticated in place. -/
def handleAuthenticate (tok : String) (st : ServerState) (senderId : String)
    (ev : WsEvent) : ServerState × List Send :=
  if tok ≠ "" ∧ ev.data.token ≠ JVal.str tok then
    (st, [⟨senderId, OutMsg.errorMsg invalidTokenMsg, true⟩])
  else
    ({ st with
        peers := mmodify st.peers senderId (fun p => { p with authenticated := true }) },
     [⟨senderId, OutMsg.authenticated, true⟩])

/-- The `module:announce` case: silently drop if the sender is not in the
registry; otherwise FIRST unregister the sender's current directory slot,
then validate `name`, then `index`, then the authentication gate, answering
the first failure with its error; on success mutate the sender's record to
the new `(name, index)` and register the new slot. -/
def handleAnnounce (tok : String) (st : ServerState) (senderId : String)
    (ev : WsEvent) : ServerState × List Send :=
  match mget st.peers senderId with
  | none => (st, [])
  | some p =>
    let d1 := unregisterModulePeer st.dir p
    if nameInvalid ev.data.name then
      ({ st with dir := d1 }, [⟨senderId, OutMsg.errorMsg announceNameMsg, true⟩])
    else if idxCheckFails ev.data.index then
      ({ st with dir := d1 }, [⟨senderId, OutMsg.errorMsg announceIndexMsg, true⟩])
    else if tok ≠ "" ∧ p.authenticated = false then
      ({ st with dir := d1 }, [⟨senderId, OutMsg.errorMsg mustAuthMsg, true⟩])
    else
      let nm := nameStr ev.data.name
      let idx := idxKey ev.data.index
      ({ peers := mmodify st.peers senderId (fun q => { q with name := nm, index := idx }),
         dir := registerModulePeer d1 senderId nm idx }, [])

/-- `peersByModule.get(moduleName)?.get(moduleIndex)`: the directory lookup
for addressed delivery.  The outer map is keyed by strings, so any non-string
`moduleName` finds nothing. -/
def uiLookup (d : Dir) (mn mi : JVal) : Option String :=
  match mn with
  | JVal.str s =>
    match mget d s with
    | some g => mget g (idxKey mi)
    | none => none
  | _ => none

/-- The `ui:configure` case: reject a literally empty `moduleName`, then an
invalid present `moduleIndex`; otherwise look the slot up and either forward
`module:configure` with the incoming `config` and the incoming `source`
as-is to the slot's peer, or answer the sender with the not-found error.
The Peer Registry is never consulted and the state never changes. -/
def handleUiConfigure (d : Dir) (senderId : String) (ev : WsEvent) : List Send :=
  if ev.data.moduleName = JVal.str "" then
    [⟨senderId, OutMsg.errorMsg uiNameMsg, true⟩]
  else if idxCheckFails ev.data.moduleIndex then
    [⟨senderId, OutMsg.errorMsg uiIndexMsg, true⟩]
  else
    match uiLookup d ev.data.moduleName ev.data.moduleIndex with
    | some tid => [⟨tid, OutMsg.moduleConfigure ev.data.config ev.source, true⟩]
    | none => [⟨senderId, OutMsg.errorMsg notFoundMsg, true⟩]

/-- One iteration of the broadcast loop: skip the sender; otherwise attempt
the send, and if the transport throws (`fails` oracle) delete the peer from
the registry and unregister its directory slot, then carry on. -/
def broadcastStep (ev : WsEvent) (fails : String → Bool) (senderId : String)
    (acc : ServerState × List Send) (e : String × PeerRec) :
    ServerState × List Send :=
  if e.1 = senderId then acc
  else if fails e.1 then
    ({ peers := mdel acc.1.peers e.1, dir := unregisterModulePeer acc.1.dir e.2 },
     acc.2 ++ [⟨e.1, OutMsg.payload ev, false⟩])
  else
    (acc.1, acc.2 ++ [⟨e.1, OutMsg.payload ev, true⟩])

/-- The default-case fan-out: iterate over the registry entries as they stood
when the broadcast started (deleting the just-visited entry does not disturb
the rest of a JS `Map` iteration), serializing the event once. -/
def broadcast (st : ServerState) (senderId : String) (ev : WsEvent)
    (fails : String → Bool) : ServerState × List Send :=
  st.peers.foldl (broadcastStep ev fails senderId) (st, [])

/-- The default case of the `message` switch: an absent or unauthenticated
sender draws the pre-built `not authenticated` notice and nothing is
broadcast; otherwise the event is broadcast to every other peer. -/
def handleDefault (st : ServerState) (senderId : String) (ev : WsEvent)
    (fails : String → Bool) : ServerState × List Send :=
  match mget st.peers senderId with
  | some p =>
    if p.authenticated then broadcast st senderId ev fails
    else (st, [⟨senderId, OutMsg.notAuthenticated, true⟩])
  | none => (st, [⟨senderId, OutMsg.notAuthenticated, true⟩])

/-- The `message` callback after a successful `message.json()`: dispatch on
`event.type` to the three control cases or the default broadcast. -/
def handleMessage (tok : String) (st : ServerState) (senderId : String)
    (ev : WsEvent) (fails : String → Bool) : ServerState × List Send :=
  if ev.type = "module:authenticate" then
    handleAuthenticate tok st senderId ev
  else if ev.type = "module:announce" then
    handleAnnounce tok st senderId ev
  else if ev.type = "ui:configure" then
    (st, handleUiConfigure st.dir senderId ev)
  else
    handleDefault st senderId ev fails

/-- The `close` callback: unregister the closing peer's directory slot if the
peer is still known, then delete it from the registry. -/
def handleClose (st : ServerState) (id : String) : ServerState :=
  { peers := mdel st.peers id,
    dir :=
      match mget st.peers id with
      | some p => unregisterModulePeer st.dir p
      | none => st.dir }

/-- One externally observable broker action: a connection opening, a frame
arriving (with the oracle saying which transport sends would throw during its
handling), or a connection closing. -/
inductive Act : Type where
  | aOpen (id : String)
  | aMsg (id : String) (ev : WsEvent) (fails : String → Bool)
  | aClose (id : String)

/-- State transition of one action (discarding the sends). -/
def stepAct (tok : String) (st : ServerState) : Act → ServerState
  | Act.aOpen id => (handleOpen tok st id).1
  | Act.aMsg id ev fails => (handleMessage tok st id ev fails).1
  | Act.aClose id => handleClose st id

/-- Run a sequence of actions from a state. -/
def runActs (tok : String) (st : ServerState) (acts : List Act) : ServerState :=
  acts.foldl (stepAct tok) st

/-- The transport contract that connection ids are unique while open: every
`open` in the trace carries an id not currently in the registry. -/
def freshOpens (tok : String) : ServerState → List Act → Bool
  | _, [] => true
  | st, a :: rest =>
    (match a with
     | Act.aOpen id => (mget st.peers id).isNone
     | _ => true) && freshOpens tok (stepAct tok st a) rest

end Airi

namespace Airi

/-! ### Lemmas about the embedded `Map` operations -/

theorem mget_eq_none_iff {α β : Type} [DecidableEq α] (l : List (α × β)) (k : α) :
    mget l k = none ↔ k ∉ l.map Prod.fst := by
  induction l with
  | nil => simp [mget]
  | cons e t ih =>
    obtain ⟨k0, v0⟩ := e
    by_cases h : k0 = k
    · subst h; simp [mget]
    · simp [mget, h, ih, Ne.symm h]

theorem mget_some_mem {α β : Type} [DecidableEq α] {l : List (α × β)} {k : α} {v : β}
    (h : mget l k = some v) : (k, v) ∈ l := by
  induction l with
  | nil => simp [mget] at h
  | cons e t ih =>
    obtain ⟨k0, v0⟩ := e
    by_cases hk : k0 = k
    · subst hk
      simp [mget] at h
      simp [h]
    · simp [mget, hk] at h
      exact List.mem_cons_of_mem _ (ih h)

theorem mget_of_mem_nodup {α β : Type} [DecidableEq α] {l : List (α × β)} {k : α} {v : β}
    (hnd : (l.map Prod.fst).Nodup) (h : (k, v) ∈ l) : mget l k = some v := by
  induction l with
  | nil => simp at h
  | cons e t ih =>
    obtain ⟨k0, v0⟩ := e
    simp only [List.map_cons, List.nodup_cons] at hnd
    rcases List.mem_cons.mp h with h1 | h2
    · obtain ⟨rfl, rfl⟩ := Prod.ext_iff.mp h1
      simp [mget]
    · have hk : k0 ≠ k := by
        rintro rfl
        exact hnd.1 (List.mem_map_of_mem Prod.fst h2)
      simp [mget, hk]
      exact ih hnd.2 h2

theorem mem_value_unique {α β : Type} [DecidableEq α] {l : List (α × β)} {k : α} {v1 v2 : β}
    (hnd : (l.map Prod.fst).Nodup) (h1 : (k, v1) ∈ l) (h2 : (k, v2) ∈ l) : v1 = v2 := by
  have e1 := mget_of_mem_nodup hnd h1
  have e2 := mget_of_mem_nodup hnd h2
  rw [e1] at e2
  exact Option.some.injEq .. ▸ e2

theorem mget_mset_self {α β : Type} [DecidableEq α] (l : List (α × β)) (k : α) (v : β) :
    mget (mset l k v) k = some v := by
  induction l with
  | nil => simp [mset, mget]
  | cons e t ih =>
    obtain ⟨k0, v0⟩ := e
    by_cases h : k0 = k
    · subst h; simp [mset, mget]
    · simp [mset, mget, h, ih]

theorem mget_mset_ne {α β : Type} [DecidableEq α] (l : List (α × β)) (k k' : α) (v : β)
    (h : k' ≠ k) : mget (mset l k v) k' = mget l k' := by
  induction l with
  | nil => simp [mset, mget, Ne.symm h]
  | cons e t ih =>
    obtain ⟨k0, v0⟩ := e
    by_cases h0 : k0 = k
    · subst h0
      simp [mset, mget, Ne.symm h]
    · simp [mset, mget, h0, ih]

theorem keys_mset_of_some {α β : Type} [DecidableEq α] {l : List (α × β)} {k : α} {w : β}
    (h : mget l k = some w) (v : β) :
    (mset l k v).map Prod.fst = l.map Prod.fst := by
  induction l with
  | nil => simp [mget] at h
  | cons e t ih =>
    obtain ⟨k0, v0⟩ := e
    by_cases h0 : k0 = k
    · subst h0; simp [mset]
    · simp [mget, h0] at h
      simp [mset, h0, ih h]

theorem keys_mset_of_none {α β : Type} [DecidableEq α] {l : List (α × β)} {k : α}
    (h : mget l k = none) (v : β) :
    (mset l k v).map Prod.fst = l.map Prod.fst ++ [k] := by
  induction l with
  | nil => simp [mset]
  | cons e t ih =>
    obtain ⟨k0, v0⟩ := e
    by_cases h0 : k0 = k
    · subst h0; simp [mget] at h
    · simp [mget, h0] at h
      simp [mset, h0, ih h]

theorem nodup_keys_mset {α β : Type} [DecidableEq α] {l : List (α × β)} {k : α} (v : β)
    (hnd : (l.map Prod.fst).Nodup) : ((mset l k v).map Prod.fst).Nodup := by
  cases h : mget l k with
  | some w => rw [keys_mset_of_some h]; exact hnd
  | none =>
    rw [keys_mset_of_none h]
    have hk : k ∉ l.map Prod.fst := (mget_eq_none_iff l k).mp h
    simp [List.nodup_append, hnd, hk]

theorem mem_mset {α β : Type} [DecidableEq α] {l : List (α × β)} {k : α} {v : β}
    {e : α × β} (h : e ∈ mset l k v) : e = (k, v) ∨ e ∈ l := by
  induction l with
  | nil => simp [mset] at h; simp [h]
  | cons e0 t ih =>
    obtain ⟨k0, v0⟩ := e0
    by_cases h0 : k0 = k
    · subst h0
      simp only [mset, if_pos rfl] at h
      rcases List.mem_cons.mp h with h1 | h2
      · exact Or.inl h1
      · exact Or.inr (List.mem_cons_of_mem _ h2)
    · simp only [mset, if_neg h0] at h
      rcases List.mem_cons.mp h with h1 | h2
      · exact Or.inr (List.mem_cons.mpr (Or.inl h1))
      · rcases ih h2 with h3 | h4
        · exact Or.inl h3
        · exact Or.inr (List.mem_cons_of_mem _ h4)

theorem mget_mdel_self {α β : Type} [DecidableEq α] (l : List (α × β)) (k : α) :
    mget (mdel l k) k = none := by
  induction l with
  | nil => simp [mdel, mget]
  | cons e t ih =>
    obtain ⟨k0, v0⟩ := e
    by_cases h : k0 = k
    · simp [mdel, h, ih]
    · simp [mdel, mget, h, ih]

theorem mget_mdel_ne {α β : Type} [DecidableEq α] (l : List (α × β)) (k k' : α)
    (h : k' ≠ k) : mget (mdel l k) k' = mget l k' := by
  induction l with
  | nil => simp [mdel]
  | cons e t ih =>
    obtain ⟨k0, v0⟩ := e
    by_cases h0 : k0 = k
    · subst h0
      simp [mdel, mget, Ne.symm h, ih]
    · simp [mdel, mget, h0, ih]

theorem mem_mdel {α β : Type} [DecidableEq α] {l : List (α × β)} {k : α} {e : α × β} :
    e ∈ mdel l k ↔ e ∈ l ∧ e.1 ≠ k := by
  induction l with
  | nil => simp [mdel]
  | cons e0 t ih =>
    obtain ⟨k0, v0⟩ := e0
    by_cases h0 : k0 = k
    · subst h0
      have hstep : mdel ((k0, v0) :: t) k0 = mdel t k0 := by
        simp [mdel]
      rw [hstep, ih]
      simp only [List.mem_cons]
      constructor
      · rintro ⟨h1, h2⟩
        exact ⟨Or.inr h1, h2⟩
      · rintro ⟨h1 | h1, h2⟩
        · exact absurd (by rw [h1]) h2
        · exact ⟨h1, h2⟩
    · simp only [mdel, if_neg h0, List.mem_cons, ih]
      constructor
      · rintro (h1 | ⟨h1, h2⟩)
        · refine ⟨Or.inl h1, ?_⟩
          rw [h1]
          exact h0
        · exact ⟨Or.inr h1, h2⟩
      · rintro ⟨h1 | h1, h2⟩
        · exact Or.inl h1
        · exact Or.inr ⟨h1, h2⟩

theorem mdel_eq_self_of_none {α β : Type} [DecidableEq α] {l : List (α × β)} {k : α}
    (h : mget l k = none) : mdel l k = l := by
  induction l with
  | nil => simp [mdel]
  | cons e t ih =>
    obtain ⟨k0, v0⟩ := e
    by_cases h0 : k0 = k
    · subst h0; simp [mget] at h
    · simp [mget, h0] at h
      simp [mdel, h0, ih h]

theorem keys_mdel_sublist {α β : Type} [DecidableEq α] (l : List (α × β)) (k : α) :
    ((mdel l k).map Prod.fst).Sublist (l.map Prod.fst) := by
  induction l with
  | nil => simp [mdel]
  | cons e t ih =>
    obtain ⟨k0, v0⟩ := e
    by_cases h0 : k0 = k
    · simp only [mdel, if_pos h0, List.map_cons]
      exact ih.trans (List.sublist_cons_self _ _)
    · simp only [mdel, if_neg h0, List.map_cons]
      exact ih.cons₂ _

theorem nodup_keys_mdel {α β : Type} [DecidableEq α] {l : List (α × β)} (k : α)
    (hnd : (l.map Prod.fst).Nodup) : ((mdel l k).map Prod.fst).Nodup :=
  hnd.sublist (keys_mdel_sublist l k)

theorem keys_mmodify {α β : Type} [DecidableEq α] (l : List (α × β)) (k : α) (f : β → β) :
    (mmodify l k f).map Prod.fst = l.map Prod.fst := by
  induction l with
  | nil => simp [mmodify]
  | cons e t ih =>
    obtain ⟨k0, v0⟩ := e
    by_cases h0 : k0 = k
    · simp [mmodify, h0]
    · simp [mmodify, h0, ih]

theorem mget_mmodify_self {α β : Type} [DecidableEq α] {l : List (α × β)} {k : α} {v : β}
    (f : β → β) (h : mget l k = some v) : mget (mmodify l k f) k = some (f v) := by
  induction l with
  | nil => simp [mget] at h
  | cons e t ih =>
    obtain ⟨k0, v0⟩ := e
    by_cases h0 : k0 = k
    · subst h0
      simp [mget] at h
      simp [mmodify, mget, h]
    · simp [mget, h0] at h
      simp [mmodify, mget, h0, ih h]

theorem mmodify_of_none {α β : Type} [DecidableEq α] {l : List (α × β)} {k : α}
    (f : β → β) (h : mget l k = none) : mmodify l k f = l := by
  induction l with
  | nil => simp [mmodify]
  | cons e t ih =>
    obtain ⟨k0, v0⟩ := e
    by_cases h0 : k0 = k
    · subst h0; simp [mget] at h
    · simp [mget, h0] at h
      simp [mmodify, h0, ih h]

theorem mget_mmodify_ne {α β : Type} [DecidableEq α] (l : List (α × β)) (k k' : α)
    (f : β → β) (h : k' ≠ k) : mget (mmodify l k f) k' = mget l k' := by
  induction l with
  | nil => simp [mmodify]
  | cons e t ih =>
    obtain ⟨k0, v0⟩ := e
    by_cases h0 : k0 = k
    · subst h0
      simp [mmodify, mget, Ne.symm h]
    · simp [mmodify, mget, h0, ih]

end Airi

namespace Airi

/-! ### The Module Directory invariant and its preservation -/

/-- Two-level directory lookup: the peer id occupying slot `(n, i)`. -/
def mget2 (d : Dir) (n : String) (i : Option Nat) : Option String :=
  match mget d n with
  | some g => mget g i
  | none => none

/-- `(n, i) ↦ pid` appears somewhere in the directory (raw membership, not
lookup, so that at-most-one-occupant is a real statement). -/
def DirRef (d : Dir) (n : String) (i : Option Nat) (pid : String) : Prop :=
  ∃ g, (n, g) ∈ d ∧ (i, pid) ∈ g

/-- Structural well-formedness of the two registries plus the binding
invariant: module names are keys of a map (no duplicates), the same for slot
indices inside each module group, directory keys are non-empty strings, and
every directory binding `(n, i) ↦ pid` points at a registry entry whose
recorded `name`/`index` are exactly `(n, i)`. -/
def Inv (st : ServerState) : Prop :=
  (st.peers.map Prod.fst).Nodup ∧
  (st.dir.map Prod.fst).Nodup ∧
  ∀ n g, (n, g) ∈ st.dir →
    (g.map Prod.fst).Nodup ∧ n ≠ "" ∧
    ∀ i pid, (i, pid) ∈ g →
      ∃ p, mget st.peers pid = some p ∧ p.name = n ∧ p.index = i

theorem dirRef_of_mget2 {d : Dir} {n : String} {i : Option Nat} {pid : String}
    (h : mget2 d n i = some pid) : DirRef d n i pid := by
  unfold mget2 at h
  cases hg : mget d n with
  | none => rw [hg] at h; cases h
  | some g =>
    rw [hg] at h
    exact ⟨g, mget_some_mem hg, mget_some_mem h⟩

theorem mget2_of_dirRef {d : Dir} {n : String} {i : Option Nat} {pid : String}
    (hnd : (d.map Prod.fst).Nodup)
    (hinner : ∀ n' g, (n', g) ∈ d → (g.map Prod.fst).Nodup)
    (h : DirRef d n i pid) : mget2 d n i = some pid := by
  obtain ⟨g, hgmem, hpmem⟩ := h
  unfold mget2
  rw [mget_of_mem_nodup hnd hgmem]
  exact mget_of_mem_nodup (hinner n g hgmem) hpmem

theorem unregister_dirRef {d : Dir} {p : PeerRec} {n : String} {i : Option Nat}
    {pid : String} (h : DirRef (unregisterModulePeer d p) n i pid) :
    DirRef d n i pid := by
  obtain ⟨g, hgmem, hpmem⟩ := h
  unfold unregisterModulePeer at hgmem
  by_cases hname : p.name = ""
  · rw [if_pos hname] at hgmem
    exact ⟨g, hgmem, hpmem⟩
  · rw [if_neg hname] at hgmem
    cases hg0 : mget d p.name with
    | none =>
      rw [hg0] at hgmem
      exact ⟨g, hgmem, hpmem⟩
    | some g0 =>
      rw [hg0] at hgmem
      simp only at hgmem
      by_cases hemp : (mdel g0 p.index).isEmpty
      · rw [if_pos hemp] at hgmem
        exact ⟨g, (mem_mdel.mp hgmem).1, hpmem⟩
      · rw [if_neg hemp] at hgmem
        rcases mem_mset hgmem with h1 | h2
        · obtain ⟨rfl, rfl⟩ := Prod.ext_iff.mp h1
          exact ⟨g0, mget_some_mem hg0, (mem_mdel.mp hpmem).1⟩
        · exact ⟨g, h2, hpmem⟩

theorem unregister_mget2_self {d : Dir} {p : PeerRec} (hname : p.name ≠ "") :
    mget2 (unregisterModulePeer d p) p.name p.index = none := by
  unfold unregisterModulePeer
  rw [if_neg hname]
  cases hg0 : mget d p.name with
  | none => simp [mget2, hg0]
  | some g0 =>
    simp only
    by_cases hemp : (mdel g0 p.index).isEmpty
    · rw [if_pos hemp]
      simp [mget2, mget_mdel_self]
    · rw [if_neg hemp]
      simp [mget2, mget_mset_self, mget_mdel_self]

theorem unregister_keys_nodup {d : Dir} {p : PeerRec}
    (hnd : (d.map Prod.fst).Nodup) :
    ((unregisterModulePeer d p).map Prod.fst).Nodup := by
  unfold unregisterModulePeer
  by_cases hname : p.name = ""
  · rw [if_pos hname]; exact hnd
  · rw [if_neg hname]
    cases hg0 : mget d p.name with
    | none => exact hnd
    | some g0 =>
      simp only
      by_cases hemp : (mdel g0 p.index).isEmpty
      · rw [if_pos hemp]; exact nodup_keys_mdel _ hnd
      · rw [if_neg hemp]; exact nodup_keys_mset _ hnd

theorem unregister_groups {d : Dir} {p : PeerRec} {n : String}
    {g : List (Option Nat × String)} (h : (n, g) ∈ unregisterModulePeer d p) :
    (n, g) ∈ d ∨ ∃ g0, (n, g0) ∈ d ∧ g = mdel g0 p.index := by
  unfold unregisterModulePeer at h
  by_cases hname : p.name = ""
  · rw [if_pos hname] at h; exact Or.inl h
  · rw [if_neg hname] at h
    cases hg0 : mget d p.name with
    | none => rw [hg0] at h; exact Or.inl h
    | some g0 =>
      rw [hg0] at h
      simp only at h
      by_cases hemp : (mdel g0 p.index).isEmpty
      · rw [if_pos hemp] at h
        exact Or.inl (mem_mdel.mp h).1
      · rw [if_neg hemp] at h
        rcases mem_mset h with h1 | h2
        · obtain ⟨rfl, rfl⟩ := Prod.ext_iff.mp h1
          exact Or.inr ⟨g0, mget_some_mem hg0, rfl⟩
        · exact Or.inl h2

theorem register_dirRef {d : Dir} {pid nm : String} {idx : Option Nat}
    {n : String} {i : Option Nat} {q : String}
    (h : DirRef (registerModulePeer d pid nm idx) n i q) :
    (n = nm ∧ i = idx ∧ q = pid) ∨ DirRef d n i q := by
  obtain ⟨g, hgmem, hpmem⟩ := h
  unfold registerModulePeer at hgmem
  cases hg0 : mget d nm with
  | none =>
    rw [hg0] at hgmem
    rcases mem_mset hgmem with h1 | h2
    · simp only [Prod.mk.injEq] at h1
      obtain ⟨rfl, rfl⟩ := h1
      simp only [List.mem_singleton, Prod.mk.injEq] at hpmem
      obtain ⟨rfl, rfl⟩ := hpmem
      exact Or.inl ⟨rfl, rfl, rfl⟩
    · exact Or.inr ⟨g, h2, hpmem⟩
  | some g0 =>
    rw [hg0] at hgmem
    rcases mem_mset hgmem with h1 | h2
    · simp only [Prod.mk.injEq] at h1
      obtain ⟨rfl, rfl⟩ := h1
      rcases mem_mset hpmem with h3 | h4
      · simp only [Prod.mk.injEq] at h3
        obtain ⟨rfl, rfl⟩ := h3
        exact Or.inl ⟨rfl, rfl, rfl⟩
      · exact Or.inr ⟨g0, mget_some_mem hg0, h4⟩
    · exact Or.inr ⟨g, h2, hpmem⟩

theorem register_keys_nodup {d : Dir} {pid nm : String} {idx : Option Nat}
    (hnd : (d.map Prod.fst).Nodup) :
    ((registerModulePeer d pid nm idx).map Prod.fst).Nodup := by
  unfold registerModulePeer
  cases hg0 : mget d nm with
  | none => exact nodup_keys_mset _ hnd
  | some g0 => exact nodup_keys_mset _ hnd

theorem register_groups {d : Dir} {pid nm : String} {idx : Option Nat} {n : String}
    {g : List (Option Nat × String)} (h : (n, g) ∈ registerModulePeer d pid nm idx) :
    (n, g) ∈ d ∨ (n = nm ∧ g = [(idx, pid)]) ∨
      ∃ g0, (n, g0) ∈ d ∧ n = nm ∧ g = mset g0 idx pid := by
  unfold registerModulePeer at h
  cases hg0 : mget d nm with
  | none =>
    rw [hg0] at h
    rcases mem_mset h with h1 | h2
    · simp only [Prod.mk.injEq] at h1
      obtain ⟨rfl, rfl⟩ := h1
      exact Or.inr (Or.inl ⟨rfl, rfl⟩)
    · exact Or.inl h2
  | some g0 =>
    rw [hg0] at h
    rcases mem_mset h with h1 | h2
    · simp only [Prod.mk.injEq] at h1
      obtain ⟨rfl, rfl⟩ := h1
      exact Or.inr (Or.inr ⟨g0, mget_some_mem hg0, rfl, rfl⟩)
    · exact Or.inl h2

theorem nodup_keys_inner_mset {g : List (Option Nat × String)} {idx : Option Nat}
    (pid : String) (hnd : (g.map Prod.fst).Nodup) :
    ((mset g idx pid).map Prod.fst).Nodup :=
  nodup_keys_mset _ hnd

end Airi

namespace Airi

theorem inv_empty : Inv ServerState.empty := by
  refine ⟨List.nodup_nil, List.nodup_nil, ?_⟩
  intro n g h
  simp [ServerState.empty] at h

theorem nameStr_of_valid {v : JVal} (h : nameInvalid v = false) :
    v = JVal.str (nameStr v) ∧ nameStr v ≠ "" := by
  cases v <;> simp [nameInvalid, nameStr] at h ⊢
  exact h

theorem inv_dir_unregister {peers : List (String × PeerRec)} {d : Dir} {p : PeerRec}
    (hInv : Inv ⟨peers, d⟩) : Inv ⟨peers, unregisterModulePeer d p⟩ := by
  obtain ⟨hp, hd, hg⟩ := hInv
  refine ⟨hp, unregister_keys_nodup hd, ?_⟩
  intro n g hmem
  rcases unregister_groups hmem with h1 | ⟨g0, h2, rfl⟩
  · exact hg n g h1
  · obtain ⟨hnd0, hne0, hb0⟩ := hg n g0 h2
    refine ⟨nodup_keys_mdel _ hnd0, hne0, ?_⟩
    intro i pid hip
    exact hb0 i pid (mem_mdel.mp hip).1

theorem inv_remove {st : ServerState} {id : String} {p : PeerRec}
    (hInv : Inv st) (h : mget st.peers id = some p) :
    Inv ⟨mdel st.peers id, unregisterModulePeer st.dir p⟩ := by
  have hInv' : Inv ⟨st.peers, unregisterModulePeer st.dir p⟩ := by
    have : Inv (⟨st.peers, st.dir⟩ : ServerState) := hInv
    exact inv_dir_unregister this
  obtain ⟨hp, hd, hg⟩ := hInv'
  refine ⟨nodup_keys_mdel _ hp, hd, ?_⟩
  intro n g hmem
  obtain ⟨hnd0, hne0, hb0⟩ := hg n g hmem
  refine ⟨hnd0, hne0, ?_⟩
  intro i pid hip
  obtain ⟨q, hq, hqn, hqi⟩ := hb0 i pid hip
  by_cases hpid : pid = id
  · subst hpid
    rw [h] at hq
    cases hq
    exfalso
    have hpn : p.name ≠ "" := by
      rw [hqn]
      exact hne0
    have href : DirRef (unregisterModulePeer st.dir p) p.name p.index pid := by
      rw [hqn, hqi]
      exact ⟨g, hmem, hip⟩
    have hlook := mget2_of_dirRef hd (fun n' g' hm => (hg n' g' hm).1) href
    rw [unregister_mget2_self hpn] at hlook
    cases hlook
  · refine ⟨q, ?_, hqn, hqi⟩
    rw [mget_mdel_ne _ _ _ hpid]
    exact hq

theorem inv_mmodify_keep {st : ServerState} {id : String} {f : PeerRec → PeerRec}
    (hf : ∀ q, (f q).name = q.name ∧ (f q).index = q.index)
    (hInv : Inv st) : Inv ⟨mmodify st.peers id f, st.dir⟩ := by
  obtain ⟨hp, hd, hg⟩ := hInv
  refine ⟨?_, hd, ?_⟩
  · rw [keys_mmodify]
    exact hp
  · intro n g hmem
    obtain ⟨hnd0, hne0, hb0⟩ := hg n g hmem
    refine ⟨hnd0, hne0, ?_⟩
    intro i pid hip
    obtain ⟨q, hq, hqn, hqi⟩ := hb0 i pid hip
    by_cases hpid : pid = id
    · subst hpid
      refine ⟨f q, mget_mmodify_self f hq, ?_, ?_⟩
      · rw [(hf q).1, hqn]
      · rw [(hf q).2, hqi]
    · refine ⟨q, ?_, hqn, hqi⟩
      rw [mget_mmodify_ne _ _ _ f hpid]
      exact hq

theorem inv_handleOpen {tok : String} {st : ServerState} {id : String}
    (hInv : Inv st) (hfresh : mget st.peers id = none) :
    Inv (handleOpen tok st id).1 := by
  obtain ⟨hp, hd, hg⟩ := hInv
  have hkeys : ∀ r : PeerRec, ((mset st.peers id r).map Prod.fst).Nodup :=
    fun r => nodup_keys_mset r hp
  have hbind : ∀ r : PeerRec, ∀ n g, (n, g) ∈ st.dir →
      (g.map Prod.fst).Nodup ∧ n ≠ "" ∧
      ∀ i pid, (i, pid) ∈ g →
        ∃ p, mget (mset st.peers id r) pid = some p ∧ p.name = n ∧ p.index = i := by
    intro r n g hmem
    obtain ⟨hnd0, hne0, hb0⟩ := hg n g hmem
    refine ⟨hnd0, hne0, ?_⟩
    intro i pid hip
    obtain ⟨q, hq, hqn, hqi⟩ := hb0 i pid hip
    by_cases hpid : pid = id
    · subst hpid
      rw [hfresh] at hq
      cases hq
    · refine ⟨q, ?_, hqn, hqi⟩
      rw [mget_mset_ne _ _ _ _ hpid]
      exact hq
  unfold handleOpen
  by_cases htok : tok ≠ ""
  · rw [if_pos htok]
    exact ⟨hkeys _, hd, hbind _⟩
  · rw [if_neg htok]
    exact ⟨hkeys _, hd, hbind _⟩

theorem inv_handleAuthenticate {tok : String} {st : ServerState} {senderId : String}
    {ev : WsEvent} (hInv : Inv st) :
    Inv (handleAuthenticate tok st senderId ev).1 := by
  unfold handleAuthenticate
  by_cases h : tok ≠ "" ∧ ev.data.token ≠ JVal.str tok
  · rw [if_pos h]
    exact hInv
  · rw [if_neg h]
    exact inv_mmodify_keep (fun q => ⟨rfl, rfl⟩) hInv

theorem inv_handleAnnounce {tok : String} {st : ServerState} {senderId : String}
    {ev : WsEvent} (hInv : Inv st) :
    Inv (handleAnnounce tok st senderId ev).1 := by
  unfold handleAnnounce
  cases hsender : mget st.peers senderId with
  | none => exact hInv
  | some p =>
    simp only
    have hInvDir : Inv ⟨st.peers, unregisterModulePeer st.dir p⟩ :=
      inv_dir_unregister (by exact hInv)
    by_cases h1 : nameInvalid ev.data.name
    · rw [if_pos h1]
      exact hInvDir
    · rw [if_neg h1]
      by_cases h2 : idxCheckFails ev.data.index
      · rw [if_pos h2]
        exact hInvDir
      · rw [if_neg h2]
        by_cases h3 : tok ≠ "" ∧ p.authenticated = false
        · rw [if_pos h3]
          exact hInvDir
        · rw [if_neg h3]
          simp only
          obtain ⟨hvstr, hvne⟩ := nameStr_of_valid (Bool.not_eq_true _ ▸ h1)
          obtain ⟨hp1, hd1, hg1⟩ := hInvDir
          set nm := nameStr ev.data.name with hnm
          set idx := idxKey ev.data.index with hidx
          set d1 := unregisterModulePeer st.dir p with hd1def
          set f : PeerRec → PeerRec :=
            fun q => { q with name := nm, index := idx } with hf
          refine ⟨?_, register_keys_nodup hd1, ?_⟩
          · rw [keys_mmodify]
            exact hInv.1
          · intro n g hmem
            have hbindNew : ∀ i pid, (i, pid) = (idx, senderId) →
                ∃ q, mget (mmodify st.peers senderId f) pid = some q ∧
                  q.name = nm ∧ q.index = i := by
              intro i pid hip
              simp only [Prod.mk.injEq] at hip
              obtain ⟨rfl, rfl⟩ := hip
              exact ⟨f p, mget_mmodify_self f hsender, rfl, rfl⟩
            have hbindOld : ∀ n' g' , (n', g') ∈ d1 → ∀ i pid, (i, pid) ∈ g' →
                ∃ q, mget (mmodify st.peers senderId f) pid = some q ∧
                  q.name = n' ∧ q.index = i := by
              intro n' g' hmem' i pid hip
              obtain ⟨q, hq, hqn, hqi⟩ := (hg1 n' g' hmem').2.2 i pid hip
              by_cases hpid : pid = senderId
              · subst hpid
                rw [hsender] at hq
                cases hq
                exfalso
                have hpn : p.name ≠ "" := by
                  rw [hqn]
                  exact (hg1 n' g' hmem').2.1
                have href : DirRef d1 p.name p.index pid := by
                  rw [hqn, hqi]
                  exact ⟨g', hmem', hip⟩
                have hlook := mget2_of_dirRef hd1
                  (fun na ga hm => (hg1 na ga hm).1) href
                rw [hd1def, unregister_mget2_self hpn] at hlook
                cases hlook
              · refine ⟨q, ?_, hqn, hqi⟩
                rw [mget_mmodify_ne _ _ _ f hpid]
                exact hq
            rcases register_groups hmem with hc1 | ⟨rfl, rfl⟩ | ⟨g0, hg0mem, rfl, rfl⟩
            · obtain ⟨hnd0, hne0, _⟩ := hg1 n g hc1
              exact ⟨hnd0, hne0, hbindOld n g hc1⟩
            · refine ⟨by simp, hvne, ?_⟩
              intro i pid hip
              simp only [List.mem_singleton] at hip
              exact hbindNew i pid hip
            · obtain ⟨hnd0, hne0, _⟩ := hg1 nm g0 hg0mem
              refine ⟨nodup_keys_mset _ hnd0, hvne, ?_⟩
              intro i pid hip
              rcases mem_mset hip with h5 | h6
              · exact hbindNew i pid h5
              · exact hbindOld nm g0 hg0mem i pid h6

end Airi

namespace Airi

/-! ### The broadcast loop: sends and invariant preservation -/

theorem broadcast_fold_sends (ev : WsEvent) (fails : String → Bool) (sender : String) :
    ∀ (entries : List (String × PeerRec)) (acc : ServerState × List Send),
      (entries.foldl (broadcastStep ev fails sender) acc).2 =
        acc.2 ++ entries.filterMap (fun e =>
          if e.1 = sender then none
          else some ⟨e.1, OutMsg.payload ev, !(fails e.1)⟩) := by
  intro entries
  induction entries with
  | nil =>
    intro acc
    simp
  | cons e t ih =>
    intro acc
    obtain ⟨id, r⟩ := e
    by_cases hs : id = sender
    · rw [List.foldl_cons, ih]
      simp [broadcastStep, hs]
    · by_cases hfail : fails id
      · rw [List.foldl_cons, ih]
        simp [broadcastStep, hs, hfail]
      · rw [List.foldl_cons, ih]
        simp [broadcastStep, hs, hfail]

theorem broadcast_fold_inv (ev : WsEvent) (fails : String → Bool) (sender : String) :
    ∀ (entries : List (String × PeerRec)) (acc : ServerState × List Send),
      Inv acc.1 →
      (entries.map Prod.fst).Nodup →
      (∀ e ∈ entries, mget acc.1.peers e.1 = some e.2) →
      Inv (entries.foldl (broadcastStep ev fails sender) acc).1 ∧
      (∀ id, mget acc.1.peers id = none →
        mget (entries.foldl (broadcastStep ev fails sender) acc).1.peers id = none) ∧
      (∀ id, fails id = false →
        mget (entries.foldl (broadcastStep ev fails sender) acc).1.peers id =
          mget acc.1.peers id) ∧
      (∀ e ∈ entries, e.1 ≠ sender → fails e.1 = true →
        mget (entries.foldl (broadcastStep ev fails sender) acc).1.peers e.1 = none) := by
  intro entries
  induction entries with
  | nil =>
    intro acc hInv _ _
    refine ⟨hInv, fun id h => h, fun id _ => rfl, ?_⟩
    intro e he
    simp at he
  | cons e t ih =>
    intro acc hInv hnd hmem
    obtain ⟨id, r⟩ := e
    simp only [List.map_cons, List.nodup_cons] at hnd
    have hid : mget acc.1.peers id = some r := hmem (id, r) (List.mem_cons_self _ _)
    by_cases hs : id = sender
    · have hstep : broadcastStep ev fails sender acc (id, r) = acc := by
        simp [broadcastStep, hs]
      rw [List.foldl_cons, hstep]
      obtain ⟨c1, c2, c3, c4⟩ := ih acc hInv hnd.2
        (fun e' he' => hmem e' (List.mem_cons_of_mem _ he'))
      refine ⟨c1, c2, c3, ?_⟩
      intro e' he' hne' hf'
      rcases List.mem_cons.mp he' with h1 | h2
      · rw [h1] at hne'
        exact absurd hs hne'
      · exact c4 e' h2 hne' hf'
    · by_cases hfail : fails id
      · have hstep : broadcastStep ev fails sender acc (id, r) =
            (⟨mdel acc.1.peers id, unregisterModulePeer acc.1.dir r⟩,
             acc.2 ++ [⟨id, OutMsg.payload ev, false⟩]) := by
          simp [broadcastStep, hs, hfail]
        rw [List.foldl_cons, hstep]
        set acc' : ServerState × List Send :=
          (⟨mdel acc.1.peers id, unregisterModulePeer acc.1.dir r⟩,
           acc.2 ++ [⟨id, OutMsg.payload ev, false⟩]) with hacc'
        have hInv' : Inv acc'.1 := inv_remove hInv hid
        have hmem' : ∀ e' ∈ t, mget acc'.1.peers e'.1 = some e'.2 := by
          intro e' he'
          have hne : e'.1 ≠ id := by
            intro hcon
            exact hnd.1 (hcon ▸ List.mem_map_of_mem Prod.fst he')
          rw [show acc'.1.peers = mdel acc.1.peers id from rfl,
            mget_mdel_ne _ _ _ hne]
          exact hmem e' (List.mem_cons_of_mem _ he')
        obtain ⟨c1, c2, c3, c4⟩ := ih acc' hInv' hnd.2 hmem'
        refine ⟨c1, ?_, ?_, ?_⟩
        · intro id' h'
          apply c2
          by_cases hq : id' = id
          · subst hq
            exact mget_mdel_self _ _
          · rw [show acc'.1.peers = mdel acc.1.peers id from rfl,
              mget_mdel_ne _ _ _ hq]
            exact h'
        · intro id' hf'
          have hne : id' ≠ id := by
            intro hcon
            rw [hcon, hfail] at hf'
            cases hf'
          rw [c3 id' hf', show acc'.1.peers = mdel acc.1.peers id from rfl,
            mget_mdel_ne _ _ _ hne]
        · intro e' he' hne' hf'
          rcases List.mem_cons.mp he' with h1 | h2
          · rw [h1]
            apply c2
            rw [show acc'.1.peers = mdel acc.1.peers id from rfl]
            exact mget_mdel_self _ _
          · exact c4 e' h2 hne' hf'
      · have hstep : broadcastStep ev fails sender acc (id, r) =
            (acc.1, acc.2 ++ [⟨id, OutMsg.payload ev, true⟩]) := by
          simp [broadcastStep, hs, hfail]
        rw [List.foldl_cons, hstep]
        obtain ⟨c1, c2, c3, c4⟩ := ih (acc.1, acc.2 ++ [⟨id, OutMsg.payload ev, true⟩])
          hInv hnd.2 (fun e' he' => hmem e' (List.mem_cons_of_mem _ he'))
        refine ⟨c1, c2, c3, ?_⟩
        intro e' he' hne' hf'
        rcases List.mem_cons.mp he' with h1 | h2
        · rw [h1] at hf'
          simp only at hf'
          rw [hf'] at hfail
          exact absurd rfl hfail
        · exact c4 e' h2 hne' hf'

theorem peers_self_mget {st : ServerState} (hInv : Inv st) :
    ∀ e ∈ st.peers, mget st.peers e.1 = some e.2 := by
  intro e he
  obtain ⟨k, v⟩ := e
  exact mget_of_mem_nodup hInv.1 he

theorem inv_broadcast {st : ServerState} {sender : String} {ev : WsEvent}
    {fails : String → Bool} (hInv : Inv st) :
    Inv (broadcast st sender ev fails).1 :=
  (broadcast_fold_inv ev fails sender st.peers (st, []) hInv hInv.1
    (peers_self_mget hInv)).1

theorem inv_handleDefault {st : ServerState} {sender : String} {ev : WsEvent}
    {fails : String → Bool} (hInv : Inv st) :
    Inv (handleDefault st sender ev fails).1 := by
  unfold handleDefault
  cases h : mget st.peers sender with
  | none => exact hInv
  | some p =>
    simp only
    by_cases ha : p.authenticated
    · rw [if_pos ha]
      exact inv_broadcast hInv
    · rw [if_neg ha]
      exact hInv

theorem inv_handleMessage {tok : String} {st : ServerState} {sender : String}
    {ev : WsEvent} {fails : String → Bool} (hInv : Inv st) :
    Inv (handleMessage tok st sender ev fails).1 := by
  unfold handleMessage
  by_cases h1 : ev.type = "module:authenticate"
  · rw [if_pos h1]
    exact inv_handleAuthenticate hInv
  · rw [if_neg h1]
    by_cases h2 : ev.type = "module:announce"
    · rw [if_pos h2]
      exact inv_handleAnnounce hInv
    · rw [if_neg h2]
      by_cases h3 : ev.type = "ui:configure"
      · rw [if_pos h3]
        exact hInv
      · rw [if_neg h3]
        exact inv_handleDefault hInv

theorem inv_handleClose {st : ServerState} {id : String} (hInv : Inv st) :
    Inv (handleClose st id) := by
  unfold handleClose
  cases h : mget st.peers id with
  | some p => exact inv_remove hInv h
  | none =>
    simp only
    rw [mdel_eq_self_of_none h]
    exact hInv

theorem inv_stepAct {tok : String} {st : ServerState} {a : Act} (hInv : Inv st)
    (hfresh : ∀ id, a = Act.aOpen id → mget st.peers id = none) :
    Inv (stepAct tok st a) := by
  cases a with
  | aOpen id => exact inv_handleOpen hInv (hfresh id rfl)
  | aMsg id ev fails => exact inv_handleMessage hInv
  | aClose id => exact inv_handleClose hInv

theorem inv_runActs {tok : String} : ∀ (acts : List Act) (st : ServerState),
    Inv st → freshOpens tok st acts = true → Inv (runActs tok st acts) := by
  intro acts
  induction acts with
  | nil =>
    intro st h _
    exact h
  | cons a t ih =>
    intro st h hfresh
    simp only [freshOpens, Bool.and_eq_true] at hfresh
    have hstep : Inv (stepAct tok st a) := by
      refine inv_stepAct h ?_
      intro id ha
      subst ha
      simpa [Option.isNone_iff_eq_none] using hfresh.1
    have hrun : runActs tok st (a :: t) = runActs tok (stepAct tok st a) t := by
      simp [runActs]
    rw [hrun]
    exact ih _ hstep hfresh.2

end Airi

namespace Airi

/-- Executable form of `Inv`, so a hypothesis of a claim theorem can be
discharged on a concrete state by evaluation. -/
def invB (st : ServerState) : Bool :=
  decide ((st.peers.map Prod.fst).Nodup) &&
  decide ((st.dir.map Prod.fst).Nodup) &&
  st.dir.all (fun e =>
    decide ((e.2.map Prod.fst).Nodup) && decide (e.1 ≠ "") &&
    e.2.all (fun b =>
      match mget st.peers b.2 with
      | some p => decide (p.name = e.1) && decide (p.index = b.1)
      | none => false))

theorem inv_of_invB {st : ServerState} (h : invB st = true) : Inv st := by
  unfold invB at h
  simp only [Bool.and_eq_true, List.all_eq_true, decide_eq_true_eq] at h
  obtain ⟨⟨hp, hd⟩, hall⟩ := h
  refine ⟨hp, hd, ?_⟩
  intro n g hmem
  obtain ⟨⟨hnd0, hne0⟩, hb0⟩ := hall (n, g) hmem
  refine ⟨hnd0, hne0, ?_⟩
  intro i pid hip
  have hb := hb0 (i, pid) hip
  cases hq : mget st.peers pid with
  | none =>
    rw [hq] at hb
    cases hb
  | some q =>
    rw [hq] at hb
    simp only [Bool.and_eq_true, decide_eq_true_eq] at hb
    exact ⟨q, rfl, hb.1, hb.2⟩

/-- C4: over every well-formed action sequence from the empty broker state
(connect, authenticate, announce, arbitrary messages, delivery failures
during broadcast, disconnect; well-formed meaning the transport never hands
out a connection id that is currently in use), the final Module Directory
maps each `(name, index)` slot to at most one peer, and every peer id a
directory entry references is present in the Peer Registry. -/
theorem claim4_directory_invariant (tok : String) (acts : List Act)
    (hfresh : freshOpens tok ServerState.empty acts = true) :
    (∀ n i pid1 pid2,
      DirRef (runActs tok ServerState.empty acts).dir n i pid1 →
      DirRef (runActs tok ServerState.empty acts).dir n i pid2 → pid1 = pid2) ∧
    (∀ n i pid, DirRef (runActs tok ServerState.empty acts).dir n i pid →
      ∃ p, (pid, p) ∈ (runActs tok ServerState.empty acts).peers) := by
  have hInv : Inv (runActs tok ServerState.empty acts) :=
    inv_runActs acts ServerState.empty inv_empty hfresh
  obtain ⟨hp, hd, hg⟩ := hInv
  constructor
  · intro n i pid1 pid2 h1 h2
    obtain ⟨g1, hg1, hip1⟩ := h1
    obtain ⟨g2, hg2, hip2⟩ := h2
    have hgeq : g1 = g2 := mem_value_unique hd hg1 hg2
    subst hgeq
    exact mem_value_unique (hg n g1 hg1).1 hip1 hip2
  · intro n i pid href
    obtain ⟨g, hgm, hip⟩ := href
    obtain ⟨p, hp', _, _⟩ := (hg n g hgm).2.2 i pid hip
    exact ⟨p, mget_some_mem hp'⟩

/-- A trace exercising all action kinds, used to witness C4: two peers
connect, authenticate, announce the same slot, exchange a broadcast with a
delivery failure, and one disconnects. -/
def witnessTrace : List Act :=
  [Act.aOpen "p", Act.aOpen "q",
   Act.aMsg "p" ⟨"module:authenticate", { token := JVal.str "s" }, "module-m"⟩
     (fun _ => false),
   Act.aMsg "q" ⟨"module:authenticate", { token := JVal.str "s" }, "module-m"⟩
     (fun _ => false),
   Act.aMsg "p" ⟨"module:announce", { name := JVal.str "m" }, "module-m"⟩
     (fun _ => false),
   Act.aMsg "q" ⟨"module:announce", { name := JVal.str "m" }, "module-m"⟩
     (fun _ => false),
   Act.aMsg "p" ⟨"chat", {}, "module-m"⟩ (fun id => id = "q"),
   Act.aClose "p"]

theorem claim4_witness :
    freshOpens "s" ServerState.empty witnessTrace = true ∧
    (∀ n i pid1 pid2,
      DirRef (runActs "s" ServerState.empty witnessTrace).dir n i pid1 →
      DirRef (runActs "s" ServerState.empty witnessTrace).dir n i pid2 →
        pid1 = pid2) ∧
    (∀ n i pid, DirRef (runActs "s" ServerState.empty witnessTrace).dir n i pid →
      ∃ p, (pid, p) ∈ (runActs "s" ServerState.empty witnessTrace).peers) :=
  ⟨by decide, claim4_directory_invariant "s" witnessTrace (by decide)⟩

/-- C8: disconnecting a peer id absent from the Peer Registry is a no-op (no
state change at all), and processing the close event twice for the same id
equals processing it once. -/
theorem claim8_close_idempotent (st : ServerState) (id : String) :
    (mget st.peers id = none → handleClose st id = st) ∧
    handleClose (handleClose st id) id = handleClose st id := by
  have hnoop : ∀ s : ServerState, mget s.peers id = none → handleClose s id = s := by
    intro s h
    unfold handleClose
    rw [h, mdel_eq_self_of_none h]
  refine ⟨hnoop st, ?_⟩
  apply hnoop
  show mget (mdel st.peers id) id = none
  exact mget_mdel_self _ _

theorem claim8_witness :
    mget ServerState.empty.peers "x" = none ∧
    handleClose ServerState.empty "x" = ServerState.empty :=
  ⟨rfl, (claim8_close_idempotent ServerState.empty "x").1 rfl⟩

end Airi

namespace Airi

/-! ### C2 and C3: unregistration precedes validation, and deletes by slot key -/

/-- A `module:announce` for module name `m` with no index. -/
def announceEvM : WsEvent := ⟨"module:announce", { name := JVal.str "m" }, "module-m"⟩

/-- A `module:announce` whose `name` is the empty string (invalid). -/
def badAnnounceEv : WsEvent := ⟨"module:announce", { name := JVal.str "" }, "module-m"⟩

/-- A transport oracle under which no send throws. -/
def noFail : String → Bool := fun _ => false

/-- State with no secret where peer `a` is connected and announced `(m, ⊥)`. -/
def stateA : ServerState :=
  runActs "" ServerState.empty [Act.aOpen "a", Act.aMsg "a" announceEvM noFail]

/-- C2 counterexample: peer `a` occupies slot `(m, ⊥)`; it then sends a
`module:announce` whose `name` is invalid (empty).  The broker answers with
exactly one error event, as the claim says, but the Module Directory is NOT
left unchanged: the sender's previously registered slot `(m, ⊥)` is gone,
because the source unregisters the sender before validating the event. -/
theorem claim2_cex :
    mget2 stateA.dir "m" none = some "a" ∧
    (handleMessage "" stateA "a" badAnnounceEv noFail).2 =
      [⟨"a", OutMsg.errorMsg announceNameMsg, true⟩] ∧
    mget2 (handleMessage "" stateA "a" badAnnounceEv noFail).1.dir "m" none = none := by
  decide

/-- C2 as amended: a `module:announce` that fails (invalid `name`, invalid
`index`, or unauthenticated under a configured secret) draws exactly one
error event to the sender and leaves the Peer Registry unchanged, but the
Module Directory is left as modified by the unconditional unregistration
that precedes validation: the slot keyed by the sender's recorded
`(name, index)` has been removed (a no-op when the sender never announced),
and nothing else changed. -/
theorem claim2_announce_failure (tok : String) (st : ServerState) (A : String)
    (p : PeerRec) (ev : WsEvent) (fails : String → Bool)
    (hty : ev.type = "module:announce")
    (hp : mget st.peers A = some p)
    (hfail : nameInvalid ev.data.name = true ∨
      (nameInvalid ev.data.name = false ∧ idxCheckFails ev.data.index = true) ∨
      (nameInvalid ev.data.name = false ∧ idxCheckFails ev.data.index = false ∧
        tok ≠ "" ∧ p.authenticated = false)) :
    (handleMessage tok st A ev fails).1.peers = st.peers ∧
    (handleMessage tok st A ev fails).1.dir = unregisterModulePeer st.dir p ∧
    ∃ m, (handleMessage tok st A ev fails).2 = [⟨A, OutMsg.errorMsg m, true⟩] := by
  have hne1 : ¬ ev.type = "module:authenticate" := by
    rw [hty]
    decide
  unfold handleMessage
  rw [if_neg hne1, if_pos hty]
  unfold handleAnnounce
  rw [hp]
  simp only
  rcases hfail with h1 | ⟨h1, h2⟩ | ⟨h1, h2, h3, h4⟩
  · rw [if_pos h1]
    exact ⟨rfl, rfl, announceNameMsg, rfl⟩
  · rw [if_neg (by rw [h1]; decide), if_pos h2]
    exact ⟨rfl, rfl, announceIndexMsg, rfl⟩
  · rw [if_neg (by rw [h1]; decide), if_neg (by rw [h2]; decide),
      if_pos ⟨h3, h4⟩]
    exact ⟨rfl, rfl, mustAuthMsg, rfl⟩

theorem claim2_witness :
    badAnnounceEv.type = "module:announce" ∧
    mget stateA.peers "a" = some ⟨true, "m", none⟩ ∧
    nameInvalid badAnnounceEv.data.name = true ∧
    (handleMessage "" stateA "a" badAnnounceEv noFail).1.peers = stateA.peers ∧
    (handleMessage "" stateA "a" badAnnounceEv noFail).1.dir =
      unregisterModulePeer stateA.dir ⟨true, "m", none⟩ ∧
    ∃ m, (handleMessage "" stateA "a" badAnnounceEv noFail).2 =
      [⟨"a", OutMsg.errorMsg m, true⟩] :=
  ⟨rfl, by decide, rfl,
    claim2_announce_failure "" stateA "a" ⟨true, "m", none⟩ badAnnounceEv noFail
      rfl (by decide) (Or.inl rfl)⟩

/-- State with no secret where `p` announced `(m, ⊥)` and was then superseded
in that slot by `q` announcing the same `(m, ⊥)`. -/
def statePQ : ServerState :=
  runActs "" ServerState.empty
    [Act.aOpen "p", Act.aOpen "q",
     Act.aMsg "p" announceEvM noFail, Act.aMsg "q" announceEvM noFail]

/-- C3 counterexample: `q` superseded `p` in slot `(m, ⊥)`; the claim says
unregistering `p` (here: on `p`'s disconnect) is a no-op and `q` remains the
occupant, but in fact the slot lookup afterwards finds nobody — `q`'s entry
was deleted, because `unregisterModulePeer` deletes by the slot key
`(p.name, p.index)` without checking the occupant. -/
theorem claim3_cex :
    mget2 statePQ.dir "m" none = some "q" ∧
    mget2 (handleClose statePQ "p").dir "m" none = none := by
  decide

/-- C3 as amended: unregistering `P` (the same helper runs on disconnect, on
a delivery failure, and at the start of a re-announcement) empties the slot
keyed by `P`'s recorded `(name, index)` outright, whoever occupies it: if a
different peer `Q` superseded `P` there, `Q`'s entry is deleted too, and the
slot becomes unoccupied rather than `Q` remaining its occupant. -/
theorem claim3_unregister_empties_slot (st : ServerState) (P : String)
    (p : PeerRec) (hn : p.name ≠ "") :
    (∀ d : Dir, mget2 (unregisterModulePeer d p) p.name p.index = none) ∧
    (mget st.peers P = some p →
      mget2 (handleClose st P).dir p.name p.index = none) := by
  refine ⟨fun d => unregister_mget2_self hn, ?_⟩
  intro h
  unfold handleClose
  simp only [h]
  exact unregister_mget2_self hn

theorem claim3_witness :
    (⟨true, "m", none⟩ : PeerRec).name ≠ "" ∧
    mget statePQ.peers "p" = some ⟨true, "m", none⟩ ∧
    mget2 (handleClose statePQ "p").dir "m" none = none :=
  ⟨by decide, by decide,
    (claim3_unregister_empties_slot statePQ "p" ⟨true, "m", none⟩
      (by decide)).2 (by decide)⟩

end Airi

namespace Airi

/-! ### C5, C6, C7, C9, C10: authentication and addressed delivery -/

/-- C5: with a shared secret configured, a `module:authenticate` carrying the
correct token draws exactly one `module:authenticated` acknowledgement and
flips the sender's `authenticated` flag; any other token draws exactly one
`invalid token` error with no state change (the connection is never closed —
no handler ever closes a peer — and the sender stays in the registry); and a
default-type event from an unauthenticated sender draws exactly one
pre-built `not authenticated` notice and zero sends to any other peer. -/
theorem claim5_authentication (tok : String) (st : ServerState) (A : String)
    (ev : WsEvent) (fails : String → Bool) (p : PeerRec) :
    (ev.type = "module:authenticate" → tok ≠ "" →
      ev.data.token = JVal.str tok → mget st.peers A = some p →
      (handleMessage tok st A ev fails).2 = [⟨A, OutMsg.authenticated, true⟩] ∧
      mget (handleMessage tok st A ev fails).1.peers A =
        some { p with authenticated := true } ∧
      (handleMessage tok st A ev fails).1.dir = st.dir) ∧
    (ev.type = "module:authenticate" → tok ≠ "" →
      ev.data.token ≠ JVal.str tok →
      handleMessage tok st A ev fails =
        (st, [⟨A, OutMsg.errorMsg invalidTokenMsg, true⟩])) ∧
    (ev.type ≠ "module:authenticate" → ev.type ≠ "module:announce" →
      ev.type ≠ "ui:configure" → mget st.peers A = some p →
      p.authenticated = false →
      handleMessage tok st A ev fails =
        (st, [⟨A, OutMsg.notAuthenticated, true⟩])) := by
  refine ⟨?_, ?_, ?_⟩
  · intro hty _ htoken hp
    unfold handleMessage
    rw [if_pos hty]
    unfold handleAuthenticate
    rw [if_neg (fun hcon => hcon.2 htoken)]
    exact ⟨rfl, mget_mmodify_self _ hp, rfl⟩
  · intro hty htok hne
    unfold handleMessage
    rw [if_pos hty]
    unfold handleAuthenticate
    rw [if_pos ⟨htok, hne⟩]
  · intro h1 h2 h3 hp hauth
    unfold handleMessage
    rw [if_neg h1, if_neg h2, if_neg h3]
    unfold handleDefault
    rw [hp]
    simp only [hauth]
    rfl

/-- State with secret `s` where peer `u` is connected but unauthenticated. -/
def stateU : ServerState := (handleOpen "s" ServerState.empty "u").1

theorem claim5_witness :
    ((handleMessage "s" stateU "u"
        ⟨"module:authenticate", { token := JVal.str "s" }, "x"⟩ noFail).2 =
      [⟨"u", OutMsg.authenticated, true⟩] ∧
      mget (handleMessage "s" stateU "u"
        ⟨"module:authenticate", { token := JVal.str "s" }, "x"⟩ noFail).1.peers "u" =
        some ⟨true, "", none⟩ ∧
      (handleMessage "s" stateU "u"
        ⟨"module:authenticate", { token := JVal.str "s" }, "x"⟩ noFail).1.dir =
        stateU.dir) ∧
    handleMessage "s" stateU "u"
        ⟨"module:authenticate", { token := JVal.str "wrong" }, "x"⟩ noFail =
      (stateU, [⟨"u", OutMsg.errorMsg invalidTokenMsg, true⟩]) ∧
    handleMessage "s" stateU "u" ⟨"chat", {}, "x"⟩ noFail =
      (stateU, [⟨"u", OutMsg.notAuthenticated, true⟩]) :=
  ⟨(claim5_authentication "s" stateU "u"
      ⟨"module:authenticate", { token := JVal.str "s" }, "x"⟩ noFail
      ⟨false, "", none⟩).1 rfl (by decide) rfl (by decide),
   (claim5_authentication "s" stateU "u"
      ⟨"module:authenticate", { token := JVal.str "wrong" }, "x"⟩ noFail
      ⟨false, "", none⟩).2.1 rfl (by decide) (by decide),
   (claim5_authentication "s" stateU "u" ⟨"chat", {}, "x"⟩ noFail
      ⟨false, "", none⟩).2.2 (by decide) (by decide) (by decide) (by decide) rfl⟩

/-- C6: a `ui:configure` that passes validation and whose
`(moduleName, moduleIndex)` slot is registered draws exactly one
`module:configure` event to that slot's peer only, carrying the incoming
`config` and the incoming `source` field unchanged; one whose slot is not
registered draws exactly one not-found error to the sender only.  Either
way the broker state is unchanged. -/
theorem claim6_ui_configure_delivery (tok : String) (st : ServerState) (A : String)
    (ev : WsEvent) (fails : String → Bool) (tid : String)
    (hty : ev.type = "ui:configure")
    (hname : ev.data.moduleName ≠ JVal.str "")
    (hidx : idxCheckFails ev.data.moduleIndex = false) :
    (uiLookup st.dir ev.data.moduleName ev.data.moduleIndex = some tid →
      handleMessage tok st A ev fails =
        (st, [⟨tid, OutMsg.moduleConfigure ev.data.config ev.source, true⟩])) ∧
    (uiLookup st.dir ev.data.moduleName ev.data.moduleIndex = none →
      handleMessage tok st A ev fails =
        (st, [⟨A, OutMsg.errorMsg notFoundMsg, true⟩])) := by
  have hne1 : ¬ ev.type = "module:authenticate" := by
    rw [hty]
    decide
  have hne2 : ¬ ev.type = "module:announce" := by
    rw [hty]
    decide
  constructor
  · intro hlook
    unfold handleMessage
    rw [if_neg hne1, if_neg hne2, if_pos hty]
    unfold handleUiConfigure
    rw [if_neg hname, if_neg (by rw [hidx]; decide), hlook]
  · intro hlook
    unfold handleMessage
    rw [if_neg hne1, if_neg hne2, if_pos hty]
    unfold handleUiConfigure
    rw [if_neg hname, if_neg (by rw [hidx]; decide), hlook]

theorem claim6_witness :
    handleMessage "" statePQ "p"
        ⟨"ui:configure", { moduleName := JVal.str "m", config := JVal.obj },
          "stage-ui"⟩ noFail =
      (statePQ, [⟨"q", OutMsg.moduleConfigure JVal.obj "stage-ui", true⟩]) ∧
    handleMessage "" statePQ "p"
        ⟨"ui:configure", { moduleName := JVal.str "nope" }, "stage-ui"⟩ noFail =
      (statePQ, [⟨"p", OutMsg.errorMsg notFoundMsg, true⟩]) :=
  ⟨(claim6_ui_configure_delivery "" statePQ "p"
      ⟨"ui:configure", { moduleName := JVal.str "m", config := JVal.obj },
        "stage-ui"⟩ noFail "q" rfl (by decide) rfl).1 (by decide),
   (claim6_ui_configure_delivery "" statePQ "p"
      ⟨"ui:configure", { moduleName := JVal.str "nope" }, "stage-ui"⟩ noFail "q"
      rfl (by decide) rfl).2 (by decide)⟩

/-- A `ui:configure` with a negative `moduleIndex` (invalid). -/
def uiBadIdxEv : WsEvent :=
  ⟨"ui:configure", { moduleName := JVal.str "m", moduleIndex := JVal.intNum (-1) }, "x"⟩

/-- A `module:announce` with a negative `index` (invalid). -/
def annBadIdxEv : WsEvent :=
  ⟨"module:announce", { name := JVal.str "m", index := JVal.intNum (-1) }, "x"⟩

/-- A `ui:configure` whose `moduleName` is the empty string (invalid). -/
def uiEmptyNameEv : WsEvent := ⟨"ui:configure", { moduleName := JVal.str "" }, "x"⟩

/-- C7 counterexample: the error messages `ui:configure` validation uses are
NOT the same strings `module:announce` validation uses — each names its own
field and event (`moduleIndex`/`ui:configure` versus `index`/
`module:announce`, and `moduleName` versus `name`), as the two rejections at
a concrete invalid index and at a concrete empty name show. -/
theorem claim7_cex :
    (handleMessage "" stateA "a" uiBadIdxEv noFail).2 =
      [⟨"a", OutMsg.errorMsg uiIndexMsg, true⟩] ∧
    (handleMessage "" stateA "a" annBadIdxEv noFail).2 =
      [⟨"a", OutMsg.errorMsg announceIndexMsg, true⟩] ∧
    uiIndexMsg ≠ announceIndexMsg ∧
    (handleMessage "" stateA "a" uiEmptyNameEv noFail).2 =
      [⟨"a", OutMsg.errorMsg uiNameMsg, true⟩] ∧
    (handleMessage "" stateA "a" badAnnounceEv noFail).2 =
      [⟨"a", OutMsg.errorMsg announceNameMsg, true⟩] ∧
    uiNameMsg ≠ announceNameMsg := by
  decide

/-- C7 as amended: `ui:configure` validation parallels the announce checks —
an empty `moduleName` is rejected, and a present `moduleIndex` that is not a
non-negative integer is rejected by the very same integer check — but each
rejection uses its own message naming the `moduleName`/`moduleIndex` field
and the `ui:configure` event, not the announce messages (from which they
differ); and only the literal empty string is rejected for `moduleName`,
unlike the announce `name` check. -/
theorem claim7_ui_validation_messages (tok : String) (st : ServerState)
    (A : String) (ev : WsEvent) (fails : String → Bool)
    (hty : ev.type = "ui:configure") :
    (ev.data.moduleName = JVal.str "" →
      handleMessage tok st A ev fails =
        (st, [⟨A, OutMsg.errorMsg uiNameMsg, true⟩])) ∧
    (ev.data.moduleName ≠ JVal.str "" → idxCheckFails ev.data.moduleIndex = true →
      handleMessage tok st A ev fails =
        (st, [⟨A, OutMsg.errorMsg uiIndexMsg, true⟩])) ∧
    uiNameMsg ≠ announceNameMsg ∧ uiIndexMsg ≠ announceIndexMsg := by
  have hne1 : ¬ ev.type = "module:authenticate" := by
    rw [hty]
    decide
  have hne2 : ¬ ev.type = "module:announce" := by
    rw [hty]
    decide
  refine ⟨?_, ?_, by decide, by decide⟩
  · intro hmn
    unfold handleMessage
    rw [if_neg hne1, if_neg hne2, if_pos hty]
    unfold handleUiConfigure
    rw [if_pos hmn]
  · intro hmn hmi
    unfold handleMessage
    rw [if_neg hne1, if_neg hne2, if_pos hty]
    unfold handleUiConfigure
    rw [if_neg hmn, if_pos hmi]

theorem claim7_witness :
    uiEmptyNameEv.type = "ui:configure" ∧
    handleMessage "" stateA "a" uiEmptyNameEv noFail =
      (stateA, [⟨"a", OutMsg.errorMsg uiNameMsg, true⟩]) ∧
    handleMessage "" stateA "a" uiBadIdxEv noFail =
      (stateA, [⟨"a", OutMsg.errorMsg uiIndexMsg, true⟩]) :=
  ⟨rfl,
   (claim7_ui_validation_messages "" stateA "a" uiEmptyNameEv noFail rfl).1 rfl,
   (claim7_ui_validation_messages "" stateA "a" uiBadIdxEv noFail rfl).2.1
     (by decide) (by decide)⟩

/-- C9: the `ui:configure` handler performs no authentication check and never
reads the Peer Registry: its reply depends only on the Module Directory and
the event, so an unauthenticated sender under a configured secret is served
exactly as an authenticated one, and the state is returned unchanged. -/
theorem claim9_ui_configure_ignores_auth (tok : String) (st1 st2 : ServerState)
    (A : String) (ev : WsEvent) (f1 f2 : String → Bool)
    (hty : ev.type = "ui:configure") (hdir : st1.dir = st2.dir) :
    (handleMessage tok st1 A ev f1).1 = st1 ∧
    (handleMessage tok st1 A ev f1).2 = (handleMessage tok st2 A ev f2).2 := by
  have hne1 : ¬ ev.type = "module:authenticate" := by
    rw [hty]
    decide
  have hne2 : ¬ ev.type = "module:announce" := by
    rw [hty]
    decide
  constructor
  · unfold handleMessage
    rw [if_neg hne1, if_neg hne2, if_pos hty]
  · unfold handleMessage
    simp only [if_neg hne1, if_neg hne2, if_pos hty, hdir]

/-- Unauthenticated sender `u` under secret `s`, with `(m, ⊥) ↦ q` registered. -/
def stateW1 : ServerState := ⟨[("u", ⟨false, "", none⟩)], [("m", [(none, "q")])]⟩

/-- The same broker with `u` authenticated. -/
def stateW2 : ServerState := ⟨[("u", ⟨true, "", none⟩)], [("m", [(none, "q")])]⟩

theorem claim9_witness :
    (handleMessage "s" stateW1 "u"
      ⟨"ui:configure", { moduleName := JVal.str "m", config := JVal.obj }, "x"⟩
      noFail).1 = stateW1 ∧
    (handleMessage "s" stateW1 "u"
      ⟨"ui:configure", { moduleName := JVal.str "m", config := JVal.obj }, "x"⟩
      noFail).2 =
    (handleMessage "s" stateW2 "u"
      ⟨"ui:configure", { moduleName := JVal.str "m", config := JVal.obj }, "x"⟩
      noFail).2 :=
  claim9_ui_configure_ignores_auth "s" stateW1 stateW2 "u"
    ⟨"ui:configure", { moduleName := JVal.str "m", config := JVal.obj }, "x"⟩
    noFail noFail rfl rfl

/-- C10: a `ui:configure` whose `moduleName` field is absent passes
validation (only the literal empty string is rejected), reaches the
directory lookup, finds no module (the outer map is string-keyed), and so
the sender receives the not-found error, not a validation error. -/
theorem claim10_absent_module_name (tok : String) (st : ServerState) (A : String)
    (ev : WsEvent) (fails : String → Bool)
    (hty : ev.type = "ui:configure")
    (hmn : ev.data.moduleName = JVal.undef)
    (hidx : idxCheckFails ev.data.moduleIndex = false) :
    handleMessage tok st A ev fails =
      (st, [⟨A, OutMsg.errorMsg notFoundMsg, true⟩]) := by
  have hne1 : ¬ ev.type = "module:authenticate" := by
    rw [hty]
    decide
  have hne2 : ¬ ev.type = "module:announce" := by
    rw [hty]
    decide
  unfold handleMessage
  rw [if_neg hne1, if_neg hne2, if_pos hty]
  unfold handleUiConfigure
  rw [if_neg (by rw [hmn]; decide), if_neg (by rw [hidx]; decide)]
  unfold uiLookup
  rw [hmn]

theorem claim10_witness :
    handleMessage "" statePQ "p" ⟨"ui:configure", {}, "x"⟩ noFail =
      (statePQ, [⟨"p", OutMsg.errorMsg notFoundMsg, true⟩]) :=
  claim10_absent_module_name "" statePQ "p" ⟨"ui:configure", {}, "x"⟩ noFail
    rfl rfl rfl

end Airi

namespace Airi

/-! ### C1: broadcast fan-out and failure isolation -/

theorem bsends_targets (A : String) (ev : WsEvent) (fails : String → Bool) :
    ∀ l : List (String × PeerRec),
      (l.filterMap (fun e => if e.1 = A then none
          else some (⟨e.1, OutMsg.payload ev, !(fails e.1)⟩ : Send))).map Send.target =
        (l.map Prod.fst).filter (fun id => decide (id ≠ A)) := by
  intro l
  induction l with
  | nil => simp
  | cons e t ih =>
    obtain ⟨id, r⟩ := e
    by_cases h : id = A
    · simp [h, ih]
    · simp [h, ih]

theorem bsends_mem (A : String) (ev : WsEvent) (fails : String → Bool)
    {l : List (String × PeerRec)} {s : Send}
    (h : s ∈ l.filterMap (fun e => if e.1 = A then none
        else some (⟨e.1, OutMsg.payload ev, !(fails e.1)⟩ : Send))) :
    s.msg = OutMsg.payload ev ∧ s.ok = !(fails s.target) := by
  rw [List.mem_filterMap] at h
  obtain ⟨e, hmem, he⟩ := h
  by_cases hid : e.1 = A
  · rw [if_pos hid] at he
    cases he
  · rw [if_neg hid] at he
    cases he
    exact ⟨rfl, rfl⟩

/-- C1: a default-type event from an authenticated sender `A` is attempted
once to each currently-registered peer other than `A` (in registry order)
and never to `A`; every attempt carries the one serialized event, and an
attempt succeeds exactly when the transport does not throw for that peer;
every peer whose send throws ends up absent from the Peer Registry and
unreferenced by the Module Directory, while every non-throwing peer's
registry entry is untouched — the failure never aborts the remaining
attempts, which stay exactly one per remaining peer. -/
theorem claim1_broadcast_semantics (tok : String) (st : ServerState) (A : String)
    (p : PeerRec) (ev : WsEvent) (fails : String → Bool)
    (hInv : invB st = true)
    (hp : mget st.peers A = some p)
    (hauth : p.authenticated = true)
    (h1 : ev.type ≠ "module:authenticate") (h2 : ev.type ≠ "module:announce")
    (h3 : ev.type ≠ "ui:configure") :
    ((handleMessage tok st A ev fails).2.map Send.target =
      (st.peers.map Prod.fst).filter (fun id => decide (id ≠ A))) ∧
    (∀ s ∈ (handleMessage tok st A ev fails).2,
      s.msg = OutMsg.payload ev ∧ s.ok = !(fails s.target)) ∧
    (∀ id, id ∈ st.peers.map Prod.fst → id ≠ A → fails id = true →
      mget (handleMessage tok st A ev fails).1.peers id = none ∧
      ∀ n i, ¬ DirRef (handleMessage tok st A ev fails).1.dir n i id) ∧
    (∀ id, fails id = false →
      mget (handleMessage tok st A ev fails).1.peers id = mget st.peers id) := by
  have hInvP : Inv st := inv_of_invB hInv
  have hmsg : handleMessage tok st A ev fails = broadcast st A ev fails := by
    unfold handleMessage
    rw [if_neg h1, if_neg h2, if_neg h3]
    unfold handleDefault
    rw [hp]
    simp only [hauth, if_true]
  rw [hmsg]
  have hsends : (broadcast st A ev fails).2 =
      st.peers.filterMap (fun e => if e.1 = A then none
        else some (⟨e.1, OutMsg.payload ev, !(fails e.1)⟩ : Send)) := by
    unfold broadcast
    rw [broadcast_fold_sends ev fails A st.peers (st, [])]
    simp
  obtain ⟨c1, c2, c3, c4⟩ :=
    broadcast_fold_inv ev fails A st.peers (st, []) hInvP hInvP.1
      (peers_self_mget hInvP)
  refine ⟨?_, ?_, ?_, ?_⟩
  · rw [hsends]
    exact bsends_targets A ev fails st.peers
  · intro s hs
    rw [hsends] at hs
    exact bsends_mem A ev fails hs
  · intro id hid hne hf
    obtain ⟨e, he, heq⟩ := List.mem_map.mp hid
    have hgone :
        mget (List.foldl (broadcastStep ev fails A) (st, []) st.peers).1.peers id =
          none := by
      rw [← heq]
      exact c4 e he (heq ▸ hne) (heq ▸ hf)
    refine ⟨hgone, ?_⟩
    intro n i href
    obtain ⟨g, hgm, hip⟩ := href
    obtain ⟨q, hq, _, _⟩ := (c1.2.2 n g hgm).2.2 i id hip
    rw [hgone] at hq
    cases hq
  · exact c3

/-- Sender `a` plus peers `b` (announced into `(m, ⊥)`) and `c`; the
transport throws when sending to `b`. -/
def stateB : ServerState :=
  ⟨[("a", ⟨true, "", none⟩), ("b", ⟨true, "m", none⟩), ("c", ⟨true, "", none⟩)],
   [("m", [(none, "b")])]⟩

/-- A default-type (non-control) event. -/
def chatEv : WsEvent := ⟨"chat", {}, "x"⟩

/-- The oracle that makes exactly the send to `b` throw. -/
def failB : String → Bool := fun id => id = "b"

theorem claim1_witness :
    invB stateB = true ∧
    (handleMessage "" stateB "a" chatEv failB).2.map Send.target = ["b", "c"] ∧
    mget (handleMessage "" stateB "a" chatEv failB).1.peers "b" = none ∧
    (∀ n i, ¬ DirRef (handleMessage "" stateB "a" chatEv failB).1.dir n i "b") ∧
    mget (handleMessage "" stateB "a" chatEv failB).1.peers "c" =
      mget stateB.peers "c" := by
  have h := claim1_broadcast_semantics "" stateB "a" ⟨true, "", none⟩ chatEv failB
    (by decide) (by decide) rfl (by decide) (by decide) (by decide)
  refine ⟨by decide, ?_, ?_, ?_, ?_⟩
  · rw [h.1]
    decide
  · exact (h.2.2.1 "b" (by decide) (by decide) (by decide)).1
  · exact (h.2.2.1 "b" (by decide) (by decide) (by decide)).2
  · exact h.2.2.2 "c" (by decide)

end Airi
